import Mathlib

/-!
Verification of the real-time audio/transcript pipeline of the
`ai-interview-coach` repository against its natural-language specification.

The development shallowly embeds the relevant source modules:

* `src/utils/audioUtils.ts` — the PCM16 uplink encoder (`float32ToPCM16`),
  the downlink decoder (`decodeAudioData`), and the gapless playback
  scheduler (`StreamAudioPlayer`, operations `queueAudio` / `stop`).
* `src/App.tsx` — the transcript aggregator (`onTranscriptUpdate`,
  `addMessageToHistory`, `handleEndSession`, the `onClose` callback).
* `src/services/geminiService.ts` — the session orchestrator
  (`disconnect`, `cleanup`, and the teardown-triggering callbacks).
  That file contains two concatenated revisions of the service class;
  the embedding follows the first (lines 1–213), which is the revision
  the specification and the claims cite.

Numbers are embedded as exact rationals (`ℚ`) for audio-clock times,
durations and normalized samples, and as `ℤ`/`ℕ` with explicit
`% 2^16` reductions for the 16-bit machine integers of the PCM codec.
JavaScript strings are embedded as `String`, byte buffers as `List ℕ`
(each element a byte value), and fallible operations as `Except`.
-/

namespace AudioUtils

/-- State of `StreamAudioPlayer` (audioUtils.ts lines 62–132): the absolute
time cursor `nextStartTime`, the active set of scheduled sources (each
scheduled source is a freshly created node, so only the size of the set is
observable to the claims; it is embedded as a count), and the `isPlaying`
flag. The `AudioContext` handle itself carries no scheduler-visible state
beyond the clock, which is passed to each operation as an argument. -/
structure PlayerState where
  nextStartTime : ℚ
  activeSources : ℕ
  isPlaying : Bool
deriving DecidableEq, Repr

/-- The player state as freshly constructed (fields initialized at
audioUtils.ts lines 63–66). -/
def initialPlayer : PlayerState := ⟨0, 0, false⟩

/-- One `queueAudio` call (audioUtils.ts lines 85–117) after a successful
decode, taken at audio-clock time `now` with a decoded buffer of duration
`d`. Returns the new state, the scheduled start time passed to
`source.start`, and the list of `onPlayStateChange` notifications emitted
by this call, in order. Lines 91–94 bump the cursor to `now` when it lags,
line 108 starts the source at the cursor, line 109 adds the fresh source to
the active set, line 111 advances the cursor by the buffer duration, and
lines 113–116 notify `true` only when the player was not already playing. -/
def queueAudioStep (s : PlayerState) (now d : ℚ) : PlayerState × ℚ × List Bool :=
  let start := if s.nextStartTime < now then now else s.nextStartTime
  ({ nextStartTime := start + d
     activeSources := s.activeSources + 1
     isPlaying := true },
   start,
   if s.isPlaying then [] else [true])

/-- One `stop` call (audioUtils.ts lines 119–131): every active source is
force-stopped and the set cleared, the cursor is reset to `0`, `isPlaying`
is cleared, and `onPlayStateChange(false)` is invoked unconditionally.
Returns the new state and the emitted notifications. -/
def stopStep (_s : PlayerState) : PlayerState × List Bool :=
  ({ nextStartTime := 0
     activeSources := 0
     isPlaying := false }, [false])

/-- The `onended` completion handler of a scheduled source (audioUtils.ts
lines 100–106): the source is removed from the active set; when the set
becomes empty, `isPlaying` is cleared and `onPlayStateChange(false)` fires. -/
def onendedStep (s : PlayerState) : PlayerState × List Bool :=
  let s1 : PlayerState := { s with activeSources := s.activeSources - 1 }
  if s1.activeSources = 0 then ({ s1 with isPlaying := false }, [false]) else (s1, [])

/-- The start times scheduled by a sequence of `queueAudio` calls, each
given as a pair (audio-clock time of the call, buffer duration). -/
def scheduleStarts (s : PlayerState) : List (ℚ × ℚ) → List ℚ
  | [] => []
  | (now, d) :: rest =>
    (queueAudioStep s now d).2.1 :: scheduleStarts (queueAudioStep s now d).1 rest

/-- The calls of a `queueAudio` sequence arrive without real-time gaps:
each call after the first arrives at an audio-clock time no later than the
scheduled end (cursor) left by the preceding call. -/
def gaplessFrom (s : PlayerState) : List (ℚ × ℚ) → Prop
  | [] => True
  | [_] => True
  | (now, d) :: (now2, d2) :: rest =>
    now2 ≤ (queueAudioStep s now d).1.nextStartTime ∧
    gaplessFrom (queueAudioStep s now d).1 ((now2, d2) :: rest)

/-- Decode failures of `decodeAudioData` (audioUtils.ts lines 18–35), with
the platform exception each corresponds to: constructing an `Int16Array`
view over a buffer whose byte length is odd throws a `RangeError`, and
`ctx.createBuffer` throws a `NotSupportedError` when the (truncated)
frame count is zero. -/
inductive DecodeError where
  | rangeError
  | notSupported
deriving DecidableEq, Repr

/-- Reinterpret two consecutive bytes, little-endian, as a signed 16-bit
integer, exactly as an `Int16Array` view over the byte buffer does. -/
def toInt16 (lo hi : ℕ) : ℤ :=
  if ((lo : ℤ) + 256 * (hi : ℤ)) % 65536 < 32768 then ((lo : ℤ) + 256 * (hi : ℤ)) % 65536
  else ((lo : ℤ) + 256 * (hi : ℤ)) % 65536 - 65536

/-- The `Int16Array` view over a byte buffer: consecutive little-endian
byte pairs become signed 16-bit values (a trailing odd byte cannot occur,
because the view's construction already failed in that case). -/
def bytesToInt16LE : List ℕ → List ℤ
  | lo :: hi :: rest => toInt16 lo hi :: bytesToInt16LE rest
  | _ => []

/-- A decoded playback buffer: channel count, frame count, and per-channel
normalized sample data (audioUtils.ts lines 26–33). -/
structure PlaybackBuffer where
  numChannels : ℕ
  frameCount : ℕ
  channelData : List (List ℚ)
deriving DecidableEq, Repr

/-- Duration of a decoded buffer at the fixed 24 kHz output rate. -/
def PlaybackBuffer.duration (b : PlaybackBuffer) : ℚ := (b.frameCount : ℚ) / 24000

/-- The downlink decoder `decodeAudioData` (audioUtils.ts lines 18–35) on a
raw byte payload. The `Int16Array` construction at line 24 throws when the
byte length is odd. At line 25 the JavaScript value
`dataInt16.length / numChannels` may be fractional; `ctx.createBuffer` at
line 26 truncates it to an integer frame count (and throws when that count
is zero), and the per-channel copy loop at lines 28–33 retains exactly the
writes whose frame index is below the truncated count — every retained
write reads `dataInt16` at an in-bounds index `i * numChannels + channel`,
so the embedding's out-of-range default is never consulted. Each retained
sample is the 16-bit value divided by `32768.0` (line 31). -/
def decodeAudioData (data : List ℕ) (numChannels : ℕ) : Except DecodeError PlaybackBuffer :=
  if data.length % 2 ≠ 0 then .error .rangeError
  else
    let dataInt16 := bytesToInt16LE data
    let frameCount := dataInt16.length / numChannels
    if frameCount = 0 then .error .notSupported
    else .ok
      { numChannels := numChannels
        frameCount := frameCount
        channelData := (List.range numChannels).map (fun channel =>
          (List.range frameCount).map (fun i =>
            ((dataInt16.getD (i * numChannels + channel) 0 : ℤ) : ℚ) / 32768)) }

/-- The decoder rejects the payload. -/
def decodeFails (data : List ℕ) (numChannels : ℕ) : Prop :=
  ∃ e, decodeAudioData data numChannels = Except.error e

/-- One downlink chunk through `queueAudio` (audioUtils.ts lines 85–117):
the chunk's bytes are decoded (mono, the call site passes no channel
override) before any scheduler state is touched, so a decode failure
propagates out of `queueAudio` leaving the scheduler unchanged and
scheduling nothing; a successful decode schedules the buffer. Returns the
new state, the scheduled start (when any), and the emitted notifications. -/
def queueAudioChunk (s : PlayerState) (now : ℚ) (data : List ℕ) :
    PlayerState × Option ℚ × List Bool :=
  match decodeAudioData data 1 with
  | .error _ => (s, none, [])
  | .ok buf =>
    let r := queueAudioStep s now buf.duration
    (r.1, some r.2.1, r.2.2)

/-- Clamp a sample to `[-1, 1]` (audioUtils.ts line 45). -/
def clamp (x : ℚ) : ℚ := max (-1) (min 1 x)

/-- Truncation toward zero, the integer conversion JavaScript applies when
a number is stored into an `Int16Array` element (for a negative argument,
truncation is `-⌊-q⌋`, the ceiling). -/
def ratTrunc (q : ℚ) : ℤ := if q < 0 then -⌊-q⌋ else ⌊q⌋

/-- Reduction of an integer to the signed 16-bit range, the wrap-around an
`Int16Array` element store applies after truncation. -/
def toInt16Wrap (n : ℤ) : ℤ :=
  if n % 65536 < 32768 then n % 65536 else n % 65536 - 65536

/-- Quantization of one normalized sample by `float32ToPCM16`
(audioUtils.ts lines 43–47): clamp to `[-1, 1]`, scale negatives by
`0x8000` and non-negatives by `0x7FFF`, and store into an `Int16Array`
element (truncation toward zero, then 16-bit wrap). -/
def float32ToPCM16Sample (x : ℚ) : ℤ :=
  toInt16Wrap (ratTrunc (if clamp x < 0 then clamp x * 32768 else clamp x * 32767))

/-- Little-endian byte pair of a 16-bit sample, as read back from the
`Uint8Array` view over the `Int16Array` buffer (audioUtils.ts line 51). -/
def int16ToBytesLE (n : ℤ) : List ℕ :=
  let v := (n % 65536).toNat
  [v % 256, v / 256]

/-- Concatenated little-endian bytes of a 16-bit sample list. -/
def pcmBytes : List ℤ → List ℕ
  | [] => []
  | n :: rest => int16ToBytesLE n ++ pcmBytes rest

/-- The uplink encoder `float32ToPCM16` (audioUtils.ts lines 41–57) at the
byte level: quantize every sample, then serialize the 16-bit buffer as
little-endian bytes. The base64 armor applied by `btoa` at line 56 and
removed by `decode`/`atob` at lines 4–12 is a bijection on byte strings
whose round trip is the identity, so the byte list is the embedding of the
encoded payload. -/
def float32ToPCM16 (xs : List ℚ) : List ℕ :=
  pcmBytes (xs.map float32ToPCM16Sample)

/-- One sample through quantization and playback normalization: the value
the downlink decoder recovers for a sample the encoder quantized. -/
def roundTripSample (x : ℚ) : ℚ := (float32ToPCM16Sample x : ℚ) / 32768

end AudioUtils

namespace Transcript

/-- The two speakers of the conversation (types.ts, `enum Speaker`). -/
inductive Speaker where
  | user
  | coach
deriving DecidableEq, Repr

/-- Whitespace as stripped by JavaScript `String.prototype.trim`: ASCII
whitespace controls, the space separators exercised by this application,
no-break space, and the byte-order mark. -/
def isJsWhitespace (c : Char) : Bool :=
  c = ' ' || c = '\t' || c = '\n' || c = '\r' ||
  c = '\x0b' || c = '\x0c' || c = '\u00A0' || c = '\uFEFF'

/-- JavaScript `text.trim()`: drop leading and trailing whitespace. -/
def jsTrim (s : String) : String :=
  ⟨((s.data.dropWhile isJsWhitespace).reverse.dropWhile isJsWhitespace).reverse⟩

/-- A committed history entry (types.ts `Message`, restricted to the fields
the aggregator logic observes: speaker and text; `id` and `timestamp` are
wall-clock identifiers with no bearing on the claims). -/
structure Utterance where
  speaker : Speaker
  text : String
deriving DecidableEq, Repr

/-- The `addMessageToHistory` helper (App.tsx lines 75–83): append the
utterance to history unless its text trims to the empty string. -/
def addMessageToHistory (msgs : List Utterance) (speaker : Speaker) (text : String) :
    List Utterance :=
  if jsTrim text = "" then msgs else msgs ++ [⟨speaker, text⟩]

/-- The aggregator state held by the App component: the open utterance
being built (`currentTranscript`, App.tsx line 18) and the committed
history (`messages`, App.tsx line 10). -/
structure AppTranscript where
  current : Option (Speaker × String)
  messages : List Utterance
deriving DecidableEq, Repr

/-- The `onTranscriptUpdate` callback (App.tsx lines 43–55) on one delta:
when an utterance is open for a different speaker, commit it through
`addMessageToHistory` and open a fresh utterance for the new speaker;
otherwise append the fragment to the open utterance (or open one). -/
def onTranscriptUpdate (st : AppTranscript) (speaker : Speaker) (text : String) :
    AppTranscript :=
  match st.current with
  | some prev =>
    if prev.1 ≠ speaker then
      { current := some (speaker, text)
        messages := addMessageToHistory st.messages prev.1 prev.2 }
    else
      { st with current := some (speaker, prev.2 ++ text) }
  | none => { st with current := some (speaker, text) }

/-- A sequence of deltas through the aggregator. -/
def runDeltas (st : AppTranscript) (ds : List (Speaker × String)) : AppTranscript :=
  ds.foldl (fun acc d => onTranscriptUpdate acc d.1 d.2) st

/-- Effect of `handleEndSession` (App.tsx lines 65–73) on the aggregator
state: the service is disconnected and the player stopped, the session
flags are reset, and `setCurrentTranscript(null)` discards the open
utterance; the committed history is not touched (no commit occurs — the
comment at App.tsx lines 85–86 records that commits happen only on
speaker switches). -/
def handleEndSession (st : AppTranscript) : AppTranscript :=
  { current := none, messages := st.messages }

/-- Effect of the `onClose` callback (App.tsx lines 56–59) on the
aggregator state: the session flags are reset and the player stopped;
neither the open utterance nor the history is touched. -/
def onCloseHandler (st : AppTranscript) : AppTranscript := st

end Transcript

namespace GeminiService

/-- The device-scoped resources of `LiveSessionService`. -/
inductive Handle where
  | micStream
  | scriptProcessor
  | inputContext
deriving DecidableEq, Repr

/-- State of `LiveSessionService` (geminiService.ts lines 37–47, first
revision of the file): whether each nullable field currently holds a live
resource, plus the `isConnected` flag. -/
structure ServiceState where
  activeSession : Bool
  stream : Bool
  processor : Bool
  inputAudioContext : Bool
  isConnected : Bool
deriving DecidableEq, Repr

/-- The `cleanup` method (geminiService.ts lines 193–212): each of the
three device handles is released and nulled exactly when it is currently
held (stream tracks stopped, processor disconnected, input context
closed). Returns the new state and the list of handles released by this
call, in program order. -/
def cleanup (s : ServiceState) : ServiceState × List Handle :=
  ({ s with stream := false, processor := false, inputAudioContext := false },
   (if s.stream then [Handle.micStream] else []) ++
   (if s.processor then [Handle.scriptProcessor] else []) ++
   (if s.inputAudioContext then [Handle.inputContext] else []))

/-- The `disconnect` method (geminiService.ts lines 177–191): clear
`isConnected`, close the transport session when one is held (tolerating an
already-closed transport) and null it, run `cleanup`, and invoke
`callbacks.onClose()` unconditionally. Returns the new state, the released
handles, and the number of `onClose` invocations this call performs. -/
def disconnect (s : ServiceState) : ServiceState × List Handle × ℕ :=
  let s1 : ServiceState := { s with isConnected := false, activeSession := false }
  let c := cleanup s1
  (c.1, c.2, 1)

/-- The four teardown triggers: an explicit `disconnect()` call, the
transport's `onclose` callback (geminiService.ts lines 81–84), the
transport's `onerror` callback (lines 85–88), and the `catch` branch of a
failed `connect` (lines 112–115). -/
inductive TeardownEvent where
  | explicitDisconnect
  | transportClose
  | transportError
  | connectFailure
deriving DecidableEq, Repr

/-- Every teardown trigger delegates to `disconnect`: the `onclose` and
`onerror` transport callbacks and the `connect` catch branch each call
`this.disconnect()`. -/
def teardownStep (s : ServiceState) (e : TeardownEvent) : ServiceState × List Handle × ℕ :=
  match e with
  | .explicitDisconnect => disconnect s
  | .transportClose => disconnect s
  | .transportError => disconnect s
  | .connectFailure => disconnect s

/-- A sequence of teardown triggers over one service instance, returning
the final state and the total number of `onClose` invocations. -/
def runTeardowns (s : ServiceState) : List TeardownEvent → ServiceState × ℕ
  | [] => (s, 0)
  | e :: es =>
    ((runTeardowns (teardownStep s e).1 es).1,
     (teardownStep s e).2.2 + (runTeardowns (teardownStep s e).1 es).2)

/-- A fully connected service: transport session open, all three device
handles held, `isConnected` set. -/
def connectedState : ServiceState := ⟨true, true, true, true, true⟩

end GeminiService

namespace AudioUtils

/-- The 16-bit view holds half as many elements as the byte buffer. -/
theorem length_bytesToInt16LE : ∀ l : List ℕ, (bytesToInt16LE l).length = l.length / 2
  | [] => rfl
  | [_] => by simp [bytesToInt16LE]
  | _ :: _ :: rest => by
    simp only [bytesToInt16LE, List.length_cons, length_bytesToInt16LE rest]
    omega

/-- Every value read through the 16-bit view lies in the signed range. -/
theorem toInt16_bounds (lo hi : ℕ) : -32768 ≤ toInt16 lo hi ∧ toInt16 lo hi ≤ 32767 := by
  unfold toInt16
  have h1 : 0 ≤ ((lo : ℤ) + 256 * (hi : ℤ)) % 65536 := Int.emod_nonneg _ (by norm_num)
  have h2 : ((lo : ℤ) + 256 * (hi : ℤ)) % 65536 < 65536 :=
    Int.emod_lt_of_pos _ (by norm_num)
  split_ifs with h <;> omega

/-- The catch-all branch of the 16-bit view: a buffer without two leading
bytes yields no elements. -/
theorem bytesToInt16LE_nil (l : List ℕ)
    (hx : ∀ (lo hi : ℕ) (rest : List ℕ), l = lo :: hi :: rest → False) :
    bytesToInt16LE l = [] := by
  match l, hx with
  | [], _ => rfl
  | [a], _ => rfl
  | a :: b :: t, hx => exact (hx a b t rfl).elim

/-- Every element of the 16-bit view lies in the signed range. -/
theorem mem_bytesToInt16LE_bounds (l : List ℕ) (z : ℤ) (h : z ∈ bytesToInt16LE l) :
    -32768 ≤ z ∧ z ≤ 32767 := by
  induction l using bytesToInt16LE.induct generalizing z with
  | case1 lo hi rest ih =>
    simp only [bytesToInt16LE, List.mem_cons] at h
    rcases h with h | hmem
    · rw [h]
      exact toInt16_bounds lo hi
    · exact ih z hmem
  | case2 x hx =>
    rw [bytesToInt16LE_nil x hx] at h
    simp at h

/-- The 16-bit wrap always lands in the signed range. -/
theorem toInt16Wrap_bounds (n : ℤ) :
    -32768 ≤ toInt16Wrap n ∧ toInt16Wrap n ≤ 32767 := by
  unfold toInt16Wrap
  have h1 : 0 ≤ n % 65536 := Int.emod_nonneg _ (by norm_num)
  have h2 : n % 65536 < 65536 := Int.emod_lt_of_pos _ (by norm_num)
  split_ifs with h <;> omega

/-- The 16-bit wrap is the identity on the signed range. -/
theorem toInt16Wrap_eq_self {n : ℤ} (h1 : -32768 ≤ n) (h2 : n ≤ 32767) :
    toInt16Wrap n = n := by
  unfold toInt16Wrap
  have e1 : 0 ≤ n % 65536 := Int.emod_nonneg _ (by norm_num)
  have e2 : n % 65536 < 65536 := Int.emod_lt_of_pos _ (by norm_num)
  have e3 : n % 65536 = n ∨ n % 65536 = n + 65536 := by omega
  split_ifs with h <;> omega

/-- Reading back the little-endian byte pair of a 16-bit value recovers the
value, up to the 16-bit wrap of the store. -/
theorem toInt16_int16ToBytesLE (n : ℤ) :
    toInt16 ((n % 65536).toNat % 256) ((n % 65536).toNat / 256) = toInt16Wrap n := by
  unfold toInt16 toInt16Wrap
  have e1 : 0 ≤ n % 65536 := Int.emod_nonneg _ (by norm_num)
  have e2 : n % 65536 < 65536 := Int.emod_lt_of_pos _ (by norm_num)
  have e3 : ((((n % 65536).toNat % 256 : ℕ) : ℤ) + 256 * (((n % 65536).toNat / 256 : ℕ) : ℤ))
      = n % 65536 := by omega
  rw [e3, Int.emod_emod_of_dvd _ dvd_rfl]

/-- Deserializing a serialized 16-bit sample list yields the wrapped values. -/
theorem bytesToInt16LE_pcmBytes : ∀ l : List ℤ,
    bytesToInt16LE (pcmBytes l) = l.map toInt16Wrap
  | [] => rfl
  | n :: rest => by
    simp [pcmBytes, int16ToBytesLE, bytesToInt16LE,
      bytesToInt16LE_pcmBytes rest, toInt16_int16ToBytesLE n]

/-- Serialized PCM16 data is two bytes per sample. -/
theorem length_pcmBytes : ∀ l : List ℤ, (pcmBytes l).length = 2 * l.length
  | [] => rfl
  | _ :: rest => by
    simp [pcmBytes, int16ToBytesLE, length_pcmBytes rest]
    omega

/-- Mapping a function over positional reads of a whole list is mapping it
over the list. -/
theorem range_map_getD (f : ℤ → ℚ) :
    ∀ l : List ℤ, (List.range l.length).map (fun i => f (l.getD i 0)) = l.map f
  | [] => rfl
  | a :: rest => by
    rw [List.length_cons, List.range_succ_eq_map, List.map_cons, List.map_map]
    have hc : ((fun i => f ((a :: rest).getD i 0)) ∘ Nat.succ) =
        fun i => f (rest.getD i 0) := by
      funext i
      simp [List.getD_cons_succ]
    rw [List.getD_cons_zero, hc, range_map_getD f rest, List.map_cons]

/-- Bounds for a positional read from a list of signed 16-bit values. -/
theorem getD_bounds (l : List ℤ) (hb : ∀ z ∈ l, -32768 ≤ z ∧ z ≤ 32767) (i : ℕ) :
    -32768 ≤ l.getD i 0 ∧ l.getD i 0 ≤ 32767 := by
  by_cases hi : i < l.length
  · rw [List.getD_eq_getElem l 0 hi]
    exact hb _ (List.getElem_mem hi)
  · rw [List.getD_eq_default l 0 (le_of_not_lt hi)]
    norm_num

/-- Exact characterization of decoder rejection: the payload is rejected
exactly when its byte length is odd (the 16-bit view cannot be built) or
the truncated frame count is zero (a zero-length buffer is unsupported). -/
theorem decode_fails_iff (data : List ℕ) (c : ℕ) :
    decodeFails data c ↔ data.length % 2 ≠ 0 ∨ data.length / 2 / c = 0 := by
  by_cases h1 : data.length % 2 ≠ 0
  · refine iff_of_true ⟨.rangeError, ?_⟩ (Or.inl h1)
    simp [decodeAudioData, h1]
  · push_neg at h1
    by_cases h2 : (bytesToInt16LE data).length / c = 0
    · have h2q : data.length / 2 / c = 0 := by rw [← length_bytesToInt16LE]; exact h2
      refine iff_of_true ⟨.notSupported, ?_⟩ (Or.inr h2q)
      simp [decodeAudioData, h1, h2]
    · have h2q : ¬ data.length / 2 / c = 0 := by rw [← length_bytesToInt16LE]; exact h2
      refine iff_of_false ?_ ?_
      · rintro ⟨e, he⟩
        simp [decodeAudioData, h1, h2] at he
      · push_neg
        exact ⟨by omega, h2q⟩

/-- Every quantized sample lies in the signed 16-bit range. -/
theorem float32ToPCM16Sample_bounds (x : ℚ) :
    -32768 ≤ float32ToPCM16Sample x ∧ float32ToPCM16Sample x ≤ 32767 := by
  unfold float32ToPCM16Sample
  exact toInt16Wrap_bounds _

/-- Decoding an encoded sample buffer (mono, as `queueAudio` decodes it)
succeeds for a non-empty buffer and recovers exactly the per-sample
round trip of the quantizer. -/
theorem decode_encode (xs : List ℚ) (hne : xs ≠ []) :
    decodeAudioData (float32ToPCM16 xs) 1 =
      .ok ⟨1, xs.length, [xs.map roundTripSample]⟩ := by
  have hInt : bytesToInt16LE (pcmBytes (xs.map float32ToPCM16Sample))
      = xs.map float32ToPCM16Sample := by
    rw [bytesToInt16LE_pcmBytes, List.map_map]
    apply List.map_congr_left
    intro x _
    exact toInt16Wrap_eq_self (float32ToPCM16Sample_bounds x).1
      (float32ToPCM16Sample_bounds x).2
  have hlen : (pcmBytes (xs.map float32ToPCM16Sample)).length = 2 * xs.length := by
    rw [length_pcmBytes, List.length_map]
  have hpos : xs.length ≠ 0 := fun h => hne (List.length_eq_zero.mp h)
  unfold decodeAudioData float32ToPCM16
  rw [if_neg (by omega : ¬ (pcmBytes (xs.map float32ToPCM16Sample)).length % 2 ≠ 0)]
  simp only [hInt, List.length_map, Nat.div_one]
  rw [if_neg hpos]
  refine congrArg Except.ok ?_
  refine congrArg (PlaybackBuffer.mk 1 xs.length) ?_
  rw [show List.range 1 = [0] from rfl, List.map_cons, List.map_nil]
  refine congrArg (fun c => [c]) ?_
  have hidx : (fun i => (((xs.map float32ToPCM16Sample).getD (i * 1 + 0) 0 : ℤ) : ℚ) / 32768)
      = fun i => (((xs.map float32ToPCM16Sample).getD i 0 : ℤ) : ℚ) / 32768 := by
    funext i
    norm_num
  rw [hidx]
  rw [show xs.length = (xs.map float32ToPCM16Sample).length from (List.length_map _ _).symm]
  rw [range_map_getD (fun z => ((z : ℤ) : ℚ) / 32768) (xs.map float32ToPCM16Sample)]
  rw [List.map_map]
  rfl

/-- Per-sample round-trip error bound of the PCM16 quantizer: at most two
least-significant bits (`2/65536 = 1/16384`) for an in-range sample. -/
theorem roundTripSample_close (x : ℚ) (h1 : -1 ≤ x) (h2 : x ≤ 1) :
    |roundTripSample x - x| ≤ 1 / 16384 := by
  have hcl : clamp x = x := by
    unfold clamp
    rw [min_eq_right h2, max_eq_right h1]
  unfold roundTripSample float32ToPCM16Sample
  rw [hcl]
  by_cases hx : x < 0
  · rw [if_pos hx]
    unfold ratTrunc
    rw [if_pos (by linarith : x * 32768 < 0)]
    have hf1 : (⌊-(x * 32768)⌋ : ℚ) ≤ -(x * 32768) := Int.floor_le _
    have hf2 : -(x * 32768) < ⌊-(x * 32768)⌋ + 1 := Int.lt_floor_add_one _
    have hub : ⌊-(x * 32768)⌋ ≤ 32768 := by
      have hle : -(x * 32768) ≤ ((32768 : ℤ) : ℚ) := by push_cast; linarith
      have := Int.floor_mono hle
      rwa [Int.floor_intCast] at this
    have hlb : (0 : ℤ) ≤ ⌊-(x * 32768)⌋ := Int.floor_nonneg.mpr (by linarith)
    rw [toInt16Wrap_eq_self (by omega) (by omega)]
    rw [abs_le]
    push_cast
    constructor <;> linarith
  · rw [if_neg hx]
    push_neg at hx
    unfold ratTrunc
    rw [if_neg (by push_neg; positivity : ¬ x * 32767 < 0)]
    have hf1 : (⌊x * 32767⌋ : ℚ) ≤ x * 32767 := Int.floor_le _
    have hf2 : x * 32767 < ⌊x * 32767⌋ + 1 := Int.lt_floor_add_one _
    have hub : ⌊x * 32767⌋ ≤ 32767 := by
      have hle : x * 32767 ≤ ((32767 : ℤ) : ℚ) := by push_cast; linarith
      have := Int.floor_mono hle
      rwa [Int.floor_intCast] at this
    have hlb : (0 : ℤ) ≤ ⌊x * 32767⌋ := Int.floor_nonneg.mpr (by positivity)
    rw [toInt16Wrap_eq_self (by omega) hub]
    rw [abs_le]
    constructor <;> linarith

/-- In a gapless `queueAudio` sequence, each scheduled start is the prior
start plus the prior duration. -/
theorem chain_of_gapless :
    ∀ (s : PlayerState) (calls : List (ℚ × ℚ)), gaplessFrom s calls →
      List.Chain' (fun a b : ℚ × ℚ => b.1 = a.1 + a.2)
        ((scheduleStarts s calls).zip (calls.map Prod.snd))
  | _, [], _ => by simp [scheduleStarts]
  | s, [(now, d)], _ => by simp [scheduleStarts]
  | s, (now, d) :: (now2, d2) :: rest, h => by
    obtain ⟨hgap, htail⟩ := h
    have ih := chain_of_gapless (queueAudioStep s now d).1 ((now2, d2) :: rest) htail
    simp only [scheduleStarts, List.map_cons, List.zip_cons_cons] at ih ⊢
    refine List.Chain'.cons ?_ ih
    show (queueAudioStep (queueAudioStep s now d).1 now2 d2).2.1 =
      (queueAudioStep s now d).2.1 + d
    simp only [queueAudioStep] at hgap ⊢
    rw [if_neg (by simpa using not_lt.mpr hgap)]

end AudioUtils

namespace GeminiService

/-- Each teardown trigger in a sequence contributes exactly one `onClose`
invocation. -/
theorem runTeardowns_count :
    ∀ (es : List TeardownEvent) (s : ServiceState), (runTeardowns s es).2 = es.length
  | [], _ => rfl
  | e :: es, s => by
    simp only [runTeardowns, runTeardowns_count es, List.length_cons]
    cases e <;> simp [teardownStep, disconnect] <;> omega

end GeminiService

namespace AudioUtils

/-- Claim C2, counterexample: `stop()` is not a no-op after the first call —
a second consecutive `stop()` still invokes `onPlayStateChange(false)`
(audioUtils.ts line 130 runs unconditionally), so the "no further observer
notification" part of the claim is false. -/
theorem c2_counterexample :
    (stopStep (stopStep ⟨5, 2, true⟩).1).2 = [false] ∧
    (stopStep (stopStep ⟨5, 2, true⟩).1).2 ≠ ([] : List Bool) := by
  exact ⟨rfl, by simp [stopStep]⟩

/-- Claim C2, amended: `stop()` is idempotent on the scheduler state — every
call, from any state, yields the stopped state (cursor 0, empty active set,
`isPlaying` false), so two consecutive calls yield identical end states —
but each call, including repeated ones, emits one `onPlayStateChange false`
notification rather than being a complete no-op. -/
theorem c2_amended (s : PlayerState) :
    stopStep s = (⟨0, 0, false⟩, [false]) ∧
    stopStep (stopStep s).1 = (⟨0, 0, false⟩, [false]) :=
  ⟨rfl, rfl⟩

/-- Claim C4, counterexample: the time cursor is not monotone non-decreasing
across every sequence of scheduler operations — `stop()` resets
`nextStartTime` to `0` (audioUtils.ts line 128), which strictly decreases it
after any buffer has been scheduled. -/
theorem c4_counterexample :
    (stopStep (queueAudioStep initialPlayer 0 1).1).1.nextStartTime <
      (queueAudioStep initialPlayer 0 1).1.nextStartTime := by
  simp [stopStep, queueAudioStep, initialPlayer]

/-- Claim C4, amended: across `queueAudio` operations the time cursor is
monotone non-decreasing (the buffer duration being non-negative), and the
scheduled start is never less than the audio clock's current time nor past
the updated cursor; `stop()`, however, resets the cursor to the idle
baseline `0`, which can decrease it. -/
theorem c4_amended (s : PlayerState) (now d : ℚ) (hd : 0 ≤ d) :
    s.nextStartTime ≤ (queueAudioStep s now d).1.nextStartTime ∧
    now ≤ (queueAudioStep s now d).2.1 ∧
    (queueAudioStep s now d).2.1 ≤ (queueAudioStep s now d).1.nextStartTime ∧
    (stopStep s).1.nextStartTime = 0 := by
  unfold queueAudioStep stopStep
  dsimp only
  split_ifs with h
  · exact ⟨by linarith, le_refl now, by linarith, rfl⟩
  · exact ⟨by linarith, by linarith [not_lt.mp h], by linarith, rfl⟩

/-- Claim C4 witness. -/
theorem c4_witness :
    initialPlayer.nextStartTime ≤ (queueAudioStep initialPlayer 3 1).1.nextStartTime ∧
    (3 : ℚ) ≤ (queueAudioStep initialPlayer 3 1).2.1 ∧
    (queueAudioStep initialPlayer 3 1).2.1 ≤ (queueAudioStep initialPlayer 3 1).1.nextStartTime ∧
    (stopStep initialPlayer).1.nextStartTime = 0 :=
  c4_amended initialPlayer 3 1 (by norm_num)

/-- Claim C5: each `queueAudio` call schedules its buffer at
`max (nextStartTime before the call) now` and leaves the cursor at that
start plus the buffer duration; a call arriving at or before the previously
scheduled end starts exactly at that end (so, by induction over the
compositional fourth conjunct, any gapless sequence satisfies
`start_{i+1} = start_i + d_i`, stated directly by the fifth conjunct); and a
call arriving after a real-time gap (`nextStartTime < now`) resets the
schedule to `now` instead of accumulating backlog. -/
theorem c5_queueAudio_schedule (s : PlayerState) (now d now2 d2 : ℚ)
    (calls : List (ℚ × ℚ)) :
    ((queueAudioStep s now d).2.1 = max s.nextStartTime now) ∧
    ((queueAudioStep s now d).1.nextStartTime = (queueAudioStep s now d).2.1 + d) ∧
    (s.nextStartTime < now → (queueAudioStep s now d).2.1 = now) ∧
    (now2 ≤ (queueAudioStep s now d).1.nextStartTime →
      (queueAudioStep (queueAudioStep s now d).1 now2 d2).2.1 =
        (queueAudioStep s now d).2.1 + d) ∧
    (gaplessFrom s calls →
      List.Chain' (fun a b : ℚ × ℚ => b.1 = a.1 + a.2)
        ((scheduleStarts s calls).zip (calls.map Prod.snd))) := by
  refine ⟨?_, rfl, ?_, ?_, chain_of_gapless s calls⟩
  · unfold queueAudioStep
    dsimp only
    split_ifs with h
    · exact (max_eq_right h.le).symm
    · exact (max_eq_left (not_lt.mp h)).symm
  · intro h
    unfold queueAudioStep
    dsimp only
    rw [if_pos h]
  · intro h
    show (if (queueAudioStep s now d).1.nextStartTime < now2 then now2
          else (queueAudioStep s now d).1.nextStartTime) = _
    rw [if_neg (not_lt.mpr h)]
    rfl

/-- Claim C5 witness. -/
theorem c5_witness :
    ((queueAudioStep initialPlayer 5 1).2.1 = max initialPlayer.nextStartTime 5) ∧
    ((queueAudioStep initialPlayer 5 1).1.nextStartTime =
      (queueAudioStep initialPlayer 5 1).2.1 + 1) ∧
    ((queueAudioStep initialPlayer 5 1).2.1 = 5) ∧
    ((queueAudioStep (queueAudioStep initialPlayer 5 1).1 6 2).2.1 =
      (queueAudioStep initialPlayer 5 1).2.1 + 1) ∧
    List.Chain' (fun a b : ℚ × ℚ => b.1 = a.1 + a.2)
      ((scheduleStarts initialPlayer [(5, 1), (6, 2)]).zip
        ([(5, 1), (6, 2)].map Prod.snd)) := by
  have h := c5_queueAudio_schedule initialPlayer 5 1 6 2 [(5, 1), (6, 2)]
  exact ⟨h.1, h.2.1,
    h.2.2.1 (by norm_num [initialPlayer]),
    h.2.2.2.1 (by norm_num [queueAudioStep, initialPlayer]),
    h.2.2.2.2 (by norm_num [gaplessFrom, queueAudioStep, initialPlayer])⟩

end AudioUtils

namespace AudioUtils

/-- Claim C7, counterexample: the "fails iff byte length is not a multiple
of 2·channels" contract is false in both directions — the empty payload has
byte length `0`, a multiple of `2·1`, yet decoding fails (zero frame count
is unsupported), while a six-byte payload at channel count `2` has byte
length not a multiple of `4` yet decodes successfully (the fractional frame
count is truncated). -/
theorem c7_counterexample :
    decodeAudioData [] 1 = .error .notSupported ∧
    ([] : List ℕ).length % (2 * 1) = 0 ∧
    (∃ buf, decodeAudioData [0, 0, 1, 0, 2, 0] 2 = .ok buf) ∧
    [0, 0, 1, 0, 2, 0].length % (2 * 2) ≠ 0 := by
  exact ⟨rfl, rfl, ⟨_, rfl⟩, by norm_num⟩

/-- Claim C7, amended: decoding a downlink chunk fails iff its byte length
is odd (the 16-bit view cannot be constructed) or the truncated frame count
`⌊len / 2 / channels⌋` is zero — for the application's mono chunks this is
"odd or empty" — and such a failure is local to the chunk: the failing
chunk leaves the scheduler state unchanged and schedules nothing, and a
subsequent valid chunk is still decoded and scheduled. -/
theorem c7_amended (data : List ℕ) (c : ℕ) (s : PlayerState) (now now2 : ℚ)
    (bad good : List ℕ) (hbad : decodeFails bad 1) (hgood : ¬ decodeFails good 1) :
    (decodeFails data c ↔ data.length % 2 ≠ 0 ∨ data.length / 2 / c = 0) ∧
    queueAudioChunk s now bad = (s, none, []) ∧
    (∃ start, (queueAudioChunk (queueAudioChunk s now bad).1 now2 good).2.1 =
      some start) := by
  obtain ⟨e, he⟩ := hbad
  have hb : queueAudioChunk s now bad = (s, none, []) := by
    unfold queueAudioChunk
    rw [he]
  refine ⟨decode_fails_iff data c, hb, ?_⟩
  rw [hb]
  rcases hok : decodeAudioData good 1 with e2 | buf
  · exact absurd ⟨e2, hok⟩ hgood
  · refine ⟨(queueAudioStep s now2 buf.duration).2.1, ?_⟩
    unfold queueAudioChunk
    rw [hok]

/-- Claim C7 witness. -/
theorem c7_witness :
    (decodeFails [1] 1 ↔ [1].length % 2 ≠ 0 ∨ [1].length / 2 / 1 = 0) ∧
    queueAudioChunk initialPlayer 0 [1] = (initialPlayer, none, []) ∧
    (∃ start, (queueAudioChunk (queueAudioChunk initialPlayer 0 [1]).1 0 [0, 128]).2.1 =
      some start) := by
  refine c7_amended [1] 1 initialPlayer 0 0 [1] [0, 128] ⟨.rangeError, rfl⟩ ?_
  rw [decode_fails_iff]
  norm_num

/-- Claim C10: every sample of a successfully decoded downlink buffer, for
any byte payload and channel count the decoder accepts, lies in
`[-32768/32768, 32767/32768]`, because each decoded 16-bit value is divided
by `32768`. -/
theorem c10_decoded_samples_in_range (data : List ℕ) (c : ℕ) (buf : PlaybackBuffer)
    (hdec : decodeAudioData data c = .ok buf) :
    ∀ chan ∈ buf.channelData, ∀ x ∈ chan, -1 ≤ x ∧ x ≤ 32767 / 32768 := by
  by_cases h1 : data.length % 2 ≠ 0
  · rw [show decodeAudioData data c = .error .rangeError from by
      simp [decodeAudioData, h1]] at hdec
    exact absurd hdec (by simp)
  · by_cases h2 : (bytesToInt16LE data).length / c = 0
    · rw [show decodeAudioData data c = .error .notSupported from by
        simp [decodeAudioData, h1, h2]] at hdec
      exact absurd hdec (by simp)
    · have hok : decodeAudioData data c = .ok
        { numChannels := c
          frameCount := (bytesToInt16LE data).length / c
          channelData := (List.range c).map (fun channel =>
            (List.range ((bytesToInt16LE data).length / c)).map (fun i =>
              (((bytesToInt16LE data).getD (i * c + channel) 0 : ℤ) : ℚ) / 32768)) } := by
        simp [decodeAudioData, h1, h2]
      rw [hok] at hdec
      injection hdec with hbuf
      rw [← hbuf]
      intro chan hchan x hx
      simp only [List.mem_map] at hchan
      obtain ⟨ch, _, rfl⟩ := hchan
      simp only [List.mem_map] at hx
      obtain ⟨i, _, rfl⟩ := hx
      have hb := getD_bounds (bytesToInt16LE data)
        (fun z hz => mem_bytesToInt16LE_bounds data z hz) (i * c + ch)
      constructor
      · rw [show (-1 : ℚ) = -32768 / 32768 by norm_num]
        exact (div_le_div_iff_of_pos_right (by norm_num)).mpr (by exact_mod_cast hb.1)
      · exact (div_le_div_iff_of_pos_right (by norm_num)).mpr (by exact_mod_cast hb.2)

/-- Claim C10 witness. -/
theorem c10_witness : -1 ≤ (-1 : ℚ) ∧ (-1 : ℚ) ≤ 32767 / 32768 := by
  have hdec : decodeAudioData [0, 128] 1 = .ok ⟨1, 1, [[-1]]⟩ := by
    simp [decodeAudioData, bytesToInt16LE, toInt16, List.range_succ]
  exact c10_decoded_samples_in_range [0, 128] 1 ⟨1, 1, [[-1]]⟩ hdec [-1] (by simp)
    (-1) (by simp)

/-- Claim C8, counterexample: the round-trip error is not bounded by one
least-significant bit. For the sample `131071/131072 = 1 - 2^(-17)` (a value
exactly representable in 32-bit floating point), the encoder quantizes
`s * 32767 = 32766.749…` to `32766`, the decoder returns
`32766/32768 = 16383/16384`, and the error `7/131072` exceeds
`1/32768 = 4/131072`. -/
theorem c8_counterexample :
    (-1 : ℚ) ≤ 131071 / 131072 ∧ (131071 / 131072 : ℚ) ≤ 1 ∧
    decodeAudioData (float32ToPCM16 [131071 / 131072]) 1 =
      .ok ⟨1, 1, [[16383 / 16384]]⟩ ∧
    ¬ (|(16383 / 16384 : ℚ) - 131071 / 131072| ≤ 1 / 32768) := by
  refine ⟨by norm_num, by norm_num, ?_, ?_⟩
  · rw [decode_encode [131071 / 131072] (by simp)]
    norm_num [roundTripSample, float32ToPCM16Sample, clamp, ratTrunc, toInt16Wrap,
      min_def, max_def]
  · rw [abs_of_nonpos (by norm_num)]
    norm_num

/-- Claim C8, amended: for every non-empty sample buffer with values in
`[-1, 1]`, decoding the encoded form recovers per-sample the quantizer
round trip, and each recovered sample is within two least-significant bits
(`2/65536 = 1/16384`) of the original: negative samples are scaled by
`32768` and recovered within `1/32768`, but non-negative samples are scaled
by `32767` and decoded by division by `32768`, which adds up to one more
LSB of shrinkage toward zero. -/
theorem c8_amended (xs : List ℚ) (hb : ∀ x ∈ xs, -1 ≤ x ∧ x ≤ 1) (hne : xs ≠ []) :
    decodeAudioData (float32ToPCM16 xs) 1 =
      .ok ⟨1, xs.length, [xs.map roundTripSample]⟩ ∧
    ∀ x ∈ xs, |roundTripSample x - x| ≤ 1 / 16384 :=
  ⟨decode_encode xs hne,
   fun x hx => roundTripSample_close x (hb x hx).1 (hb x hx).2⟩

/-- Claim C8 witness. -/
theorem c8_witness :
    decodeAudioData (float32ToPCM16 [(1 : ℚ) / 2]) 1 =
      .ok ⟨1, [(1 : ℚ) / 2].length, [[(1 : ℚ) / 2].map roundTripSample]⟩ ∧
    |roundTripSample ((1 : ℚ) / 2) - 1 / 2| ≤ 1 / 16384 := by
  have h := c8_amended [(1 : ℚ) / 2]
    (by
      intro x hx
      simp only [List.mem_singleton] at hx
      subst hx
      norm_num)
    (by simp)
  exact ⟨h.1, h.2 _ (by simp)⟩

end AudioUtils

namespace Transcript

/-- Claim C6: a delta whose speaker differs from the open utterance's
speaker commits the open utterance to history iff its accumulated text is
non-empty after trimming whitespace (the committed text itself untrimmed),
then opens a fresh utterance for the new speaker; a same-speaker delta is a
pure append. In particular, `[(user,"a"), (user,"b"), (coach,"c")]` commits
exactly the single utterance `(user,"ab")` before opening `(coach,"c")`,
and `[(user," "), (coach,"x")]` commits nothing. -/
theorem c6_speaker_switch_commit :
    (∀ (st : AppTranscript) (prev : Speaker × String) (sp : Speaker) (t : String),
      st.current = some prev → prev.1 ≠ sp →
      onTranscriptUpdate st sp t =
        { current := some (sp, t)
          messages := if jsTrim prev.2 = "" then st.messages
                      else st.messages ++ [⟨prev.1, prev.2⟩] }) ∧
    (∀ (st : AppTranscript) (prev : Speaker × String) (sp : Speaker) (t : String),
      st.current = some prev → prev.1 = sp →
      onTranscriptUpdate st sp t = { st with current := some (sp, prev.2 ++ t) }) ∧
    runDeltas ⟨none, []⟩ [(.user, "a"), (.user, "b"), (.coach, "c")] =
      ⟨some (.coach, "c"), [⟨.user, "ab"⟩]⟩ ∧
    runDeltas ⟨none, []⟩ [(.user, " "), (.coach, "x")] =
      ⟨some (.coach, "x"), []⟩ := by
  refine ⟨?_, ?_, by decide, by decide⟩
  · intro st prev sp t hcur hne
    simp only [onTranscriptUpdate, addMessageToHistory, hcur]
    rw [if_pos hne]
  · intro st prev sp t hcur heq
    simp only [onTranscriptUpdate, hcur]
    rw [if_neg (by simp [heq])]

/-- Claim C6 witness. -/
theorem c6_witness :
    onTranscriptUpdate ⟨some (.user, "a"), []⟩ .coach "c" =
      { current := some (.coach, "c")
        messages := if jsTrim "a" = "" then ([] : List Utterance)
                    else [] ++ [⟨.user, "a"⟩] } ∧
    onTranscriptUpdate ⟨some (.user, "a"), []⟩ .user "b" =
      ⟨some (.user, "a" ++ "b"), []⟩ := by
  have h := c6_speaker_switch_commit
  exact ⟨h.1 ⟨some (.user, "a"), []⟩ (.user, "a") .coach "c" rfl (by decide),
         h.2.1 ⟨some (.user, "a"), []⟩ (.user, "a") .user "b" rfl rfl⟩

/-- Claim C3, counterexample: ending the session does silently discard
non-empty accumulated text — `handleEndSession` on an open utterance
`(user, "hello")` clears the open utterance and leaves history unchanged
(no commit, although the text does not trim to empty), and the `onClose`
path does not touch the aggregator state either. -/
theorem c3_counterexample :
    handleEndSession ⟨some (.user, "hello"), []⟩ = ⟨none, []⟩ ∧
    jsTrim "hello" ≠ "" ∧
    onCloseHandler ⟨some (.user, "hello"), []⟩ = ⟨some (.user, "hello"), []⟩ :=
  ⟨rfl, by decide, rfl⟩

/-- Claim C3, amended: on session end the aggregator performs no commit:
`handleEndSession` discards the open utterance (sets it to `none`) and
leaves the committed history exactly unchanged, and the remote-close
handler leaves the aggregator state untouched; accumulated text reaches
history only through a later speaker switch. -/
theorem c3_amended (st : AppTranscript) :
    handleEndSession st = ⟨none, st.messages⟩ ∧ onCloseHandler st = st :=
  ⟨rfl, rfl⟩

end Transcript

namespace GeminiService

/-- Claim C1, counterexample: `onClose` is not invoked exactly once per
session lifecycle — an explicit `disconnect()` on a connected service
followed by the transport's own close event (which the `onclose` callback
routes to `disconnect()` again, geminiService.ts line 83) invokes
`callbacks.onClose()` twice, since `disconnect` calls it unconditionally at
line 190 with no already-closed guard. -/
theorem c1_counterexample :
    (runTeardowns connectedState
      [.explicitDisconnect, .transportClose]).2 = 2 := by
  decide

/-- Claim C1, amended: every teardown trigger — explicit `disconnect()`,
remote-initiated close, transport error, or connect-time failure — invokes
`onClose` exactly once per trigger, so a lifecycle fires it at least once;
but the count equals the number of teardown triggers processed, so a
transport close or error event delivered after an explicit `disconnect()`
fires the notification a second time. -/
theorem c1_amended (s : ServiceState) (e : TeardownEvent) (es : List TeardownEvent) :
    (teardownStep s e).2.2 = 1 ∧ (runTeardowns s es).2 = es.length := by
  refine ⟨?_, runTeardowns_count es s⟩
  cases e <;> rfl

/-- Claim C9: on every teardown path (all four delegate to `disconnect`,
which runs `cleanup`), each held device handle — microphone stream,
script processor, input audio context — is released exactly once and its
field nulled, no handle remains held afterwards, and a repeated
`disconnect` releases nothing further; this also covers partial
acquisition, since the state quantifies over any subset of held handles. -/
theorem c9_teardown_releases_once (s : ServiceState) (e : TeardownEvent) :
    ((teardownStep s e).2.1.count Handle.micStream = if s.stream then 1 else 0) ∧
    ((teardownStep s e).2.1.count Handle.scriptProcessor = if s.processor then 1 else 0) ∧
    ((teardownStep s e).2.1.count Handle.inputContext =
      if s.inputAudioContext then 1 else 0) ∧
    (teardownStep s e).1.stream = false ∧
    (teardownStep s e).1.processor = false ∧
    (teardownStep s e).1.inputAudioContext = false ∧
    (teardownStep (teardownStep s e).1 e).2.1 = [] := by
  rcases s with ⟨a, b, c, d, f⟩
  cases e <;> cases a <;> cases b <;> cases c <;> cases d <;> cases f <;> decide

end GeminiService
